import Mathlib

/-!
Verification of the paged single-table record store (`src/lib.rs`).

The Rust code is shallowly embedded: byte buffers are `List Nat`, the
`u32` id is a `Nat` (serialized to four little-endian bytes, matching the
native-endian 4-byte copy in `serialize`), and every Rust panic is
modelled as `none` of an `Option` result.  The fixed-size array types of
Rust (`[u8; 32]`, `[u8; 255]`, `[Option<Box<[u8; 4096]>>; 100]`) become
length well-formedness predicates `Row.WF` and `Table.WF`.
-/

namespace RustDb

/-- `COLUMN_ID_SIZE` from `src/lib.rs`. -/
def COLUMN_ID_SIZE : Nat := 4

/-- `COLUMN_USERNAME_SIZE` from `src/lib.rs`. -/
def COLUMN_USERNAME_SIZE : Nat := 32

/-- `COLUMN_EMAIL_SIZE` from `src/lib.rs`. -/
def COLUMN_EMAIL_SIZE : Nat := 255

/-- `COLUMN_ID_OFFSET` from `src/lib.rs`. -/
def COLUMN_ID_OFFSET : Nat := 0

/-- `COLUMN_USERNAME_OFFSET = COLUMN_ID_SIZE` from `src/lib.rs`. -/
def COLUMN_USERNAME_OFFSET : Nat := COLUMN_ID_SIZE

/-- `COLUMN_EMAIL_OFFSET = COLUMN_USERNAME_OFFSET + COLUMN_USERNAME_SIZE`. -/
def COLUMN_EMAIL_OFFSET : Nat := COLUMN_USERNAME_OFFSET + COLUMN_USERNAME_SIZE

/-- `ROW_SIZE = COLUMN_ID_SIZE + COLUMN_USERNAME_SIZE + COLUMN_EMAIL_SIZE`. -/
def ROW_SIZE : Nat := COLUMN_ID_SIZE + COLUMN_USERNAME_SIZE + COLUMN_EMAIL_SIZE

/-- `PAGE_SIZE` from `src/lib.rs`. -/
def PAGE_SIZE : Nat := 4096

/-- `MAX_PAGES` from `src/lib.rs`. -/
def MAX_PAGES : Nat := 100

/-- `ROWS_PER_PAGE = PAGE_SIZE / ROW_SIZE` (integer division). -/
def ROWS_PER_PAGE : Nat := PAGE_SIZE / ROW_SIZE

/-- `MAX_ROWS = MAX_PAGES * ROWS_PER_PAGE` from `src/lib.rs`. -/
def MAX_ROWS : Nat := MAX_PAGES * ROWS_PER_PAGE

/-- The `Row` struct of `src/lib.rs`: `id: u32`, `username: [u8; 32]`,
`email: [u8; 255]`.  The fixed array lengths (and the `u32` range of `id`)
are recorded by `Row.WF` rather than by the type. -/
structure Row where
  id : Nat
  username : List Nat
  email : List Nat
deriving DecidableEq, Repr, Inhabited

/-- The facts the Rust types guarantee about every `Row` value:
`id` fits in a `u32` and the two byte arrays have their declared length. -/
def Row.WF (r : Row) : Prop :=
  r.id < 2 ^ 32 ∧ r.username.length = COLUMN_USERNAME_SIZE ∧
    r.email.length = COLUMN_EMAIL_SIZE

instance (r : Row) : Decidable r.WF := by
  unfold Row.WF; exact inferInstance

/-- Overwriting `dest[off .. off + src.length)` with `src`
(the effect of `copy_from_slice` / `copy_nonoverlapping` into a window). -/
def writeBytes (dest : List Nat) (off : Nat) (src : List Nat) : List Nat :=
  dest.take off ++ src ++ dest.drop (off + src.length)

/-- Reading the window `src[off .. off + len)`. -/
def readBytes (src : List Nat) (off len : Nat) : List Nat :=
  (src.drop off).take len

/-- The four little-endian bytes of a `u32`, as copied by
`ptr::copy_nonoverlapping(&row.id, dest, COLUMN_ID_SIZE)`. -/
def u32ToBytes (n : Nat) : List Nat :=
  [n % 256, n / 256 % 256, n / 65536 % 256, n / 16777216 % 256]

/-- Reassembling a `u32` from its four little-endian bytes, as done by the
4-byte copy into `row.id` in `deserialize`. -/
def bytesToU32 (bs : List Nat) : Nat :=
  bs.getD 0 0 + 256 * bs.getD 1 0 + 65536 * bs.getD 2 0 + 16777216 * bs.getD 3 0

/-- `Row::new` from `src/lib.rs`: start from zero-filled arrays and
`copy_from_slice` the input bytes over the front.  The slice expression
`row.username[..username_bytes.len()]` panics when the input is longer
than the field, which is modelled by returning `none`. -/
def Row.new (id : Nat) (username email : List Nat) : Option Row :=
  if username.length ≤ COLUMN_USERNAME_SIZE then
    if email.length ≤ COLUMN_EMAIL_SIZE then
      some { id := id,
             username := writeBytes (List.replicate COLUMN_USERNAME_SIZE 0) 0 username,
             email := writeBytes (List.replicate COLUMN_EMAIL_SIZE 0) 0 email }
    else none
  else none

/-- `serialize` from `src/lib.rs`: three `copy_nonoverlapping` calls
writing the id bytes at `COLUMN_ID_OFFSET`, the username array at
`COLUMN_USERNAME_OFFSET` and the email array at `COLUMN_EMAIL_OFFSET`. -/
def serialize (row : Row) (dest : List Nat) : List Nat :=
  writeBytes
    (writeBytes (writeBytes dest COLUMN_ID_OFFSET (u32ToBytes row.id))
      COLUMN_USERNAME_OFFSET row.username)
    COLUMN_EMAIL_OFFSET row.email

/-- `deserialize` from `src/lib.rs`: reads the three fields back from the
same fixed offsets. -/
def deserialize (src : List Nat) : Row :=
  { id := bytesToU32 (readBytes src COLUMN_ID_OFFSET COLUMN_ID_SIZE),
    username := readBytes src COLUMN_USERNAME_OFFSET COLUMN_USERNAME_SIZE,
    email := readBytes src COLUMN_EMAIL_OFFSET COLUMN_EMAIL_SIZE }

/-- The exact 291-byte wire image of a row (what `serialize` deposits in
the destination window). -/
def encodeRow (r : Row) : List Nat :=
  u32ToBytes r.id ++ r.username ++ r.email

/-- The `Table` struct of `src/lib.rs`: a row count and
`pages: [Option<Box<[u8; PAGE_SIZE]>>; MAX_PAGES]`. -/
structure Table where
  num_rows : Nat
  pages : List (Option (List Nat))
deriving Repr

/-- The facts the Rust types guarantee about every `Table` value: exactly
`MAX_PAGES` page cells, each allocated page exactly `PAGE_SIZE` bytes. -/
def Table.WF (t : Table) : Prop :=
  t.pages.length = MAX_PAGES ∧
  ∀ p pg, t.pages.getD p none = some pg → pg.length = PAGE_SIZE

/-- `Table::new` from `src/lib.rs`: zero rows, all pages `None`. -/
def Table.new : Table :=
  { num_rows := 0, pages := List.replicate MAX_PAGES none }

/-- The page cell at index `p`. -/
def pageOf (t : Table) (p : Nat) : Option (List Nat) :=
  t.pages.getD p none

/-- The allocation step inside `Table::row_slot`: if page `p` is `None`,
store a zero-initialized `PAGE_SIZE` buffer there. -/
def allocPage (t : Table) (p : Nat) : Table :=
  if (t.pages.getD p none).isNone then
    { t with pages := t.pages.set p (some (List.replicate PAGE_SIZE 0)) }
  else t

/-- `Table::row_slot` from `src/lib.rs`, read view: panics (`none`) when
`index / ROWS_PER_PAGE ≥ MAX_PAGES`, otherwise allocates the owning page
on demand and returns the updated table together with the `ROW_SIZE`-byte
window at `(index % ROWS_PER_PAGE) * ROW_SIZE`. -/
def row_slot (t : Table) (index : Nat) : Option (Table × List Nat) :=
  let page_num := index / ROWS_PER_PAGE
  if page_num ≥ MAX_PAGES then none
  else
    let t2 := allocPage t page_num
    let page := (t2.pages.getD page_num none).getD []
    let byte_offset := index % ROWS_PER_PAGE * ROW_SIZE
    some (t2, readBytes page byte_offset ROW_SIZE)

/-- The compound `serialize(row, table.row_slot(index))` of the insert
path: obtain the mutable slot window (allocating its page on demand,
panicking as `none` on an out-of-range page) and overwrite it with the
serialized row. -/
def writeRowSlot (t : Table) (index : Nat) (row : Row) : Option Table :=
  let page_num := index / ROWS_PER_PAGE
  if page_num ≥ MAX_PAGES then none
  else
    let t2 := allocPage t page_num
    let page := (t2.pages.getD page_num none).getD []
    let byte_offset := index % ROWS_PER_PAGE * ROW_SIZE
    let newPage := page.take byte_offset ++
      serialize row (readBytes page byte_offset ROW_SIZE) ++
      page.drop (byte_offset + ROW_SIZE)
    some { t2 with pages := t2.pages.set page_num (some newPage) }

/-- The `ExecuteResult` enum of `src/lib.rs`. -/
inductive ExecuteResult where
  | Success
  | TableFull
deriving DecidableEq, Repr

/-- `execute_insert` from `src/lib.rs`: reject when
`num_rows ≥ MAX_ROWS`, otherwise serialize into `row_slot(num_rows)` and
increment `num_rows`. -/
def execute_insert (t : Table) (row : Row) : Option (ExecuteResult × Table) :=
  if t.num_rows ≥ MAX_ROWS then some (.TableFull, t)
  else
    match writeRowSlot t t.num_rows row with
    | none => none
    | some t2 => some (.Success, { t2 with num_rows := t2.num_rows + 1 })

/-- The `for i in 0..table.num_rows` loop of `execute_select`: starting at
index `i`, decode `k` consecutive row slots, threading the table state
(slot access may allocate pages). -/
def selectRows : Table → Nat → Nat → Option (List Row × Table)
  | t, _, 0 => some ([], t)
  | t, i, k + 1 =>
    match row_slot t i with
    | none => none
    | some (t2, bytes) =>
      match selectRows t2 (i + 1) k with
      | none => none
      | some (rows, t3) => some (deserialize bytes :: rows, t3)

/-- `execute_select` from `src/lib.rs`: decode rows `0 .. num_rows` in
order and return `Success` with the decoded rows (the rows the loop hands
to `Row::write`, in emission order). -/
def execute_select (t : Table) : Option (ExecuteResult × List Row × Table) :=
  match selectRows t 0 t.num_rows with
  | none => none
  | some (rows, t2) => some (.Success, rows, t2)

/-- Running `execute_insert` once per row of a list, left to right,
collecting the results. -/
def insertAll : Table → List Row → Option (List ExecuteResult × Table)
  | t, [] => some ([], t)
  | t, r :: rs =>
    match execute_insert t r with
    | none => none
    | some (res, t2) =>
      match insertAll t2 rs with
      | none => none
      | some (ress, t3) => some (res :: ress, t3)

/-- One externally visible operation on the table: an insert of some row,
or a select. -/
inductive Step : Table → Table → Prop where
  | insert {t t' : Table} (r : Row) (res : ExecuteResult)
      (h : execute_insert t r = some (res, t')) : Step t t'
  | sel {t t' : Table} (res : ExecuteResult) (rows : List Row)
      (h : execute_select t = some (res, rows, t')) : Step t t'

/-- Table states reachable from `Table::new` by inserts and selects. -/
inductive Reachable : Table → Prop where
  | base : Reachable Table.new
  | step {t t' : Table} : Reachable t → Step t t' → Reachable t'

/-- The ASCII bytes of the string `testuser` used by the unit tests. -/
def testUsername : List Nat := [116, 101, 115, 116, 117, 115, 101, 114]

/-- The ASCII bytes of the test email string used by the unit tests. -/
def testEmail : List Nat :=
  [116, 101, 115, 116, 64, 101, 120, 97, 109, 112, 108, 101, 46, 99, 111, 109]

/-- The row the unit tests build with `Row::new(1, ...)`. -/
def testRow : Row := (Row.new 1 testUsername testEmail).getD default

/-- A table at full capacity with no page allocated (all rows would have
been discarded up front only in this artificial state; it is used purely
as a concrete full table). -/
def fullTable : Table :=
  { num_rows := MAX_ROWS, pages := List.replicate MAX_PAGES none }

/-- The byte window of row slot `i`, an absent page reading as its
zero-initialized image.  Pure read, no allocation. -/
def slotBytes (t : Table) (i : Nat) : List Nat :=
  readBytes ((pageOf t (i / ROWS_PER_PAGE)).getD (List.replicate PAGE_SIZE 0))
    (i % ROWS_PER_PAGE * ROW_SIZE) ROW_SIZE

lemma ROW_SIZE_eq : ROW_SIZE = 291 := rfl

lemma PAGE_SIZE_eq : PAGE_SIZE = 4096 := rfl

lemma MAX_PAGES_eq : MAX_PAGES = 100 := rfl

lemma ROWS_PER_PAGE_eq : ROWS_PER_PAGE = 14 := rfl

lemma MAX_ROWS_eq : MAX_ROWS = 1400 := rfl

lemma COLUMN_USERNAME_SIZE_eq : COLUMN_USERNAME_SIZE = 32 := rfl

lemma COLUMN_EMAIL_SIZE_eq : COLUMN_EMAIL_SIZE = 255 := rfl

lemma slot_offset_bound (i : Nat) :
    i % ROWS_PER_PAGE * ROW_SIZE + ROW_SIZE ≤ PAGE_SIZE := by
  rw [ROWS_PER_PAGE_eq, ROW_SIZE_eq, PAGE_SIZE_eq]
  omega

lemma page_num_bound (i : Nat) (h : i < MAX_ROWS) :
    i / ROWS_PER_PAGE < MAX_PAGES := by
  rw [MAX_ROWS_eq] at h
  rw [ROWS_PER_PAGE_eq, MAX_PAGES_eq]
  omega

lemma offset_lt (i n : Nat) (hin : i < n)
    (hpq : i / ROWS_PER_PAGE = n / ROWS_PER_PAGE) :
    i % ROWS_PER_PAGE * ROW_SIZE + ROW_SIZE ≤ n % ROWS_PER_PAGE * ROW_SIZE := by
  rw [ROWS_PER_PAGE_eq] at hpq
  rw [ROWS_PER_PAGE_eq, ROW_SIZE_eq]
  omega

lemma bytesToU32_u32ToBytes (n : Nat) (h : n < 2 ^ 32) :
    bytesToU32 (u32ToBytes n) = n := by
  simp only [bytesToU32, u32ToBytes, List.getD_cons_zero, List.getD_cons_succ]
  omega

lemma encodeRow_length (r : Row) (h1 : r.username.length = COLUMN_USERNAME_SIZE)
    (h2 : r.email.length = COLUMN_EMAIL_SIZE) :
    (encodeRow r).length = ROW_SIZE := by
  simp [encodeRow, u32ToBytes, h1, h2, ROW_SIZE, COLUMN_ID_SIZE,
    COLUMN_USERNAME_SIZE, COLUMN_EMAIL_SIZE]

lemma writeBytes_length (dest src : List Nat) (off : Nat)
    (h : off + src.length ≤ dest.length) :
    (writeBytes dest off src).length = dest.length := by
  simp only [writeBytes, List.length_append, List.length_take, List.length_drop]
  omega

lemma readBytes_length (src : List Nat) (off len : Nat)
    (h : off + len ≤ src.length) :
    (readBytes src off len).length = len := by
  simp only [readBytes, List.length_take, List.length_drop]
  omega

lemma readBytes_writeBytes_self (dest src : List Nat) (off : Nat)
    (h : off ≤ dest.length) :
    readBytes (writeBytes dest off src) off src.length = src := by
  have hA : (dest.take off).length = off := by rw [List.length_take]; omega
  rw [readBytes, writeBytes, List.append_assoc, List.drop_left' hA,
    List.take_left]

lemma readBytes_writeBytes_left (dest src : List Nat) (off off2 len : Nat)
    (h1 : off2 + len ≤ off) (h2 : off ≤ dest.length) :
    readBytes (writeBytes dest off src) off2 len = readBytes dest off2 len := by
  have hA : (dest.take off).length = off := by rw [List.length_take]; omega
  rw [readBytes, readBytes, writeBytes, List.append_assoc,
    List.drop_append_of_le_length (by omega : off2 ≤ (dest.take off).length),
    List.take_append_of_le_length
      (by rw [List.length_drop, hA] ; omega),
    List.drop_take, List.take_take, min_eq_left (by omega)]

lemma readBytes_writeBytes_right (dest src : List Nat) (off off2 len : Nat)
    (h1 : off + src.length ≤ off2) (h2 : off ≤ dest.length) :
    readBytes (writeBytes dest off src) off2 len = readBytes dest off2 len := by
  have hA : (dest.take off ++ src).length = off + src.length := by
    rw [List.length_append, List.length_take]; omega
  rw [readBytes, readBytes, writeBytes]
  rw [show off2 = (off + src.length) + (off2 - (off + src.length)) from by omega]
  rw [← List.drop_drop, List.drop_left' hA, List.drop_drop]

lemma writeBytes_zero (l src : List Nat) :
    writeBytes l 0 src = src ++ l.drop src.length := by
  simp [writeBytes]

lemma writeBytes_shift (L M src : List Nat) :
    writeBytes (L ++ M) L.length src = L ++ writeBytes M 0 src := by
  rw [writeBytes, writeBytes, List.take_left, ← List.drop_drop, List.drop_left]
  simp

lemma serialize_spec (r : Row) (dest : List Nat)
    (h1 : r.username.length = COLUMN_USERNAME_SIZE)
    (h2 : r.email.length = COLUMN_EMAIL_SIZE) :
    serialize r dest = encodeRow r ++ dest.drop ROW_SIZE := by
  rw [serialize, encodeRow]
  rw [show COLUMN_ID_OFFSET = 0 from rfl, writeBytes_zero]
  rw [show (u32ToBytes r.id).length = 4 from rfl]
  rw [show COLUMN_USERNAME_OFFSET = (u32ToBytes r.id).length from rfl,
    writeBytes_shift, writeBytes_zero, h1]
  rw [List.drop_drop]
  rw [show COLUMN_EMAIL_OFFSET = (u32ToBytes r.id ++ r.username).length from by
    simp [COLUMN_EMAIL_OFFSET, COLUMN_USERNAME_OFFSET, COLUMN_ID_SIZE,
      COLUMN_USERNAME_SIZE, u32ToBytes, h1]]
  rw [← List.append_assoc, writeBytes_shift, writeBytes_zero, h2, List.drop_drop]
  simp [List.append_assoc, ROW_SIZE, COLUMN_ID_SIZE, COLUMN_USERNAME_SIZE,
    COLUMN_EMAIL_SIZE]

lemma deserialize_encode (r : Row) (rest : List Nat) (hWF : r.WF) :
    deserialize (encodeRow r ++ rest) = r := by
  obtain ⟨hid, h1, h2⟩ := hWF
  rw [COLUMN_USERNAME_SIZE_eq] at h1
  rw [COLUMN_EMAIL_SIZE_eq] at h2
  have hB : (u32ToBytes r.id).length = 4 := rfl
  have hBU : (u32ToBytes r.id ++ r.username).length = 36 := by
    simp [u32ToBytes, h1]
  simp only [deserialize, encodeRow, readBytes, COLUMN_ID_OFFSET,
    COLUMN_USERNAME_OFFSET, COLUMN_EMAIL_OFFSET, COLUMN_ID_SIZE,
    COLUMN_USERNAME_SIZE, COLUMN_EMAIL_SIZE, List.append_assoc, List.drop_zero]
  cases r with
  | mk rid ru re =>
    simp only at h1 h2 hid hB hBU ⊢
    congr 1
    · rw [List.take_left' hB]
      exact bytesToU32_u32ToBytes rid hid
    · rw [List.drop_left' hB, List.take_left' h1]
    · rw [← List.append_assoc, List.drop_left' hBU, List.take_left' h2]

lemma getD_set_self {α} (l : List α) (i : Nat) (a d : α) (h : i < l.length) :
    (l.set i a).getD i d = a := by
  simp [List.getD_eq_getElem?_getD, List.getElem?_set_self, h]

lemma getD_set_ne {α} (l : List α) (i j : Nat) (a d : α) (h : i ≠ j) :
    (l.set i a).getD j d = l.getD j d := by
  simp [List.getD_eq_getElem?_getD, List.getElem?_set_ne h]

lemma getD_replicate_none {α} (n p : Nat) :
    (List.replicate n (none : Option α)).getD p none = none := by
  simp only [List.getD_eq_getElem?_getD, List.getElem?_replicate]
  split <;> simp

lemma table_new_WF : Table.new.WF := by
  constructor
  · simp [Table.new]
  · intro p pg h
    rw [Table.new] at h
    simp only [getD_replicate_none] at h
    cases h

lemma allocPage_num_rows (t : Table) (p : Nat) :
    (allocPage t p).num_rows = t.num_rows := by
  rw [allocPage]; split <;> rfl

lemma allocPage_pages_length (t : Table) (p : Nat) :
    (allocPage t p).pages.length = t.pages.length := by
  rw [allocPage]; split <;> simp

lemma pageOf_allocPage_ne (t : Table) (p q : Nat) (h : q ≠ p) :
    pageOf (allocPage t p) q = pageOf t q := by
  rw [allocPage]; split
  · simp only [pageOf]
    exact getD_set_ne _ p q _ _ (Ne.symm h)
  · rfl

lemma pageOf_allocPage_self (t : Table) (p : Nat)
    (hlen : t.pages.length = MAX_PAGES) (hp : p < MAX_PAGES) :
    pageOf (allocPage t p) p =
      some ((pageOf t p).getD (List.replicate PAGE_SIZE 0)) := by
  rw [allocPage, pageOf, pageOf]
  rcases hpg : t.pages.getD p none with _ | pg
  · have hc : ((none : Option (List Nat)).isNone = true) := rfl
    rw [if_pos hc]
    simp only [Option.getD_none]
    exact getD_set_self _ p _ none (by rw [hlen]; exact hp)
  · have hc : ¬ ((some pg).isNone = true) := by simp
    rw [if_neg hc, hpg]
    rfl

lemma allocPage_eq_of_some (t : Table) (p : Nat) (pg : List Nat)
    (h : pageOf t p = some pg) : allocPage t p = t := by
  rw [pageOf] at h
  rw [allocPage, if_neg (by rw [h]; simp)]

lemma allocPage_WF (t : Table) (p : Nat) (h : t.WF) : (allocPage t p).WF := by
  obtain ⟨hlen, hpg⟩ := h
  rw [allocPage]; split
  · refine ⟨by simpa using hlen, ?_⟩
    intro q pg hq
    simp only at hq
    by_cases hqp : q = p
    · subst hqp
      rcases Nat.lt_or_ge q t.pages.length with hql | hql
      · rw [getD_set_self _ _ _ _ hql] at hq
        simp only [Option.some.injEq] at hq
        simp [← hq]
      · rw [List.getD_eq_default] at hq
        · cases hq
        · simpa using hql
    · rw [getD_set_ne _ _ _ _ _ (Ne.symm hqp)] at hq
      exact hpg q pg hq
  · exact ⟨hlen, hpg⟩

lemma row_slot_eq (t : Table) (i : Nat) (hp : i / ROWS_PER_PAGE < MAX_PAGES) :
    row_slot t i = some (allocPage t (i / ROWS_PER_PAGE),
      readBytes
        (((allocPage t (i / ROWS_PER_PAGE)).pages.getD (i / ROWS_PER_PAGE)
          none).getD [])
        (i % ROWS_PER_PAGE * ROW_SIZE) ROW_SIZE) := by
  simp only [row_slot]
  rw [if_neg (Nat.not_le.mpr hp)]

lemma row_slot_of_some (t : Table) (i : Nat) (pg : List Nat)
    (hp : i / ROWS_PER_PAGE < MAX_PAGES)
    (hpg : pageOf t (i / ROWS_PER_PAGE) = some pg) :
    row_slot t i =
      some (t, readBytes pg (i % ROWS_PER_PAGE * ROW_SIZE) ROW_SIZE) := by
  rw [row_slot_eq t i hp, allocPage_eq_of_some t _ pg hpg]
  rw [pageOf] at hpg
  rw [hpg]
  rfl

lemma row_slot_none (t : Table) (i : Nat)
    (hp : MAX_PAGES ≤ i / ROWS_PER_PAGE) : row_slot t i = none := by
  simp only [row_slot]
  rw [if_pos hp]

lemma writeRowSlot_spec (t : Table) (i : Nat) (r : Row) (hWF : t.WF)
    (h1 : r.username.length = COLUMN_USERNAME_SIZE)
    (h2 : r.email.length = COLUMN_EMAIL_SIZE)
    (hp : i / ROWS_PER_PAGE < MAX_PAGES) :
    pageOf (allocPage t (i / ROWS_PER_PAGE)) (i / ROWS_PER_PAGE) =
      some ((pageOf t (i / ROWS_PER_PAGE)).getD (List.replicate PAGE_SIZE 0)) ∧
    ((pageOf t (i / ROWS_PER_PAGE)).getD (List.replicate PAGE_SIZE 0)).length =
      PAGE_SIZE ∧
    writeRowSlot t i r = some
      { num_rows := t.num_rows,
        pages := (allocPage t (i / ROWS_PER_PAGE)).pages.set (i / ROWS_PER_PAGE)
          (some (writeBytes
            ((pageOf t (i / ROWS_PER_PAGE)).getD (List.replicate PAGE_SIZE 0))
            (i % ROWS_PER_PAGE * ROW_SIZE) (encodeRow r))) } := by
  have hself := pageOf_allocPage_self t (i / ROWS_PER_PAGE) hWF.1 hp
  have hlenpg :
      ((pageOf t (i / ROWS_PER_PAGE)).getD (List.replicate PAGE_SIZE 0)).length
        = PAGE_SIZE := by
    rcases hq : pageOf t (i / ROWS_PER_PAGE) with _ | pg0
    · simp
    · rw [pageOf] at hq
      simpa using hWF.2 _ _ hq
  refine ⟨hself, hlenpg, ?_⟩
  simp only [writeRowSlot]
  rw [if_neg (Nat.not_le.mpr hp)]
  rw [pageOf] at hself
  rw [hself]
  have hwin :
      (readBytes ((pageOf t (i / ROWS_PER_PAGE)).getD (List.replicate PAGE_SIZE 0))
        (i % ROWS_PER_PAGE * ROW_SIZE) ROW_SIZE).length = ROW_SIZE :=
    readBytes_length _ _ _ (by rw [hlenpg]; exact slot_offset_bound i)
  have hser :
      serialize r (readBytes
        ((pageOf t (i / ROWS_PER_PAGE)).getD (List.replicate PAGE_SIZE 0))
        (i % ROWS_PER_PAGE * ROW_SIZE) ROW_SIZE) = encodeRow r := by
    rw [serialize_spec r _ h1 h2, List.drop_eq_nil_of_le (Nat.le_of_eq hwin),
      List.append_nil]
  simp only [Option.getD_some, hser]
  rw [writeBytes, encodeRow_length r h1 h2, allocPage_num_rows]

lemma execute_insert_spec (t : Table) (r : Row) (hWF : t.WF)
    (h1 : r.username.length = COLUMN_USERNAME_SIZE)
    (h2 : r.email.length = COLUMN_EMAIL_SIZE)
    (hn : t.num_rows < MAX_ROWS) :
    pageOf (allocPage t (t.num_rows / ROWS_PER_PAGE))
        (t.num_rows / ROWS_PER_PAGE) =
      some ((pageOf t (t.num_rows / ROWS_PER_PAGE)).getD
        (List.replicate PAGE_SIZE 0)) ∧
    ((pageOf t (t.num_rows / ROWS_PER_PAGE)).getD
        (List.replicate PAGE_SIZE 0)).length = PAGE_SIZE ∧
    execute_insert t r = some (.Success,
      { num_rows := t.num_rows + 1,
        pages := (allocPage t (t.num_rows / ROWS_PER_PAGE)).pages.set
          (t.num_rows / ROWS_PER_PAGE)
          (some (writeBytes
            ((pageOf t (t.num_rows / ROWS_PER_PAGE)).getD
              (List.replicate PAGE_SIZE 0))
            (t.num_rows % ROWS_PER_PAGE * ROW_SIZE) (encodeRow r))) }) := by
  obtain ⟨hself, hlenpg, heq⟩ :=
    writeRowSlot_spec t t.num_rows r hWF h1 h2 (page_num_bound _ hn)
  refine ⟨hself, hlenpg, ?_⟩
  rw [execute_insert, if_neg (Nat.not_le.mpr hn), heq]

lemma slot_offset_le (i : Nat) : i % ROWS_PER_PAGE * ROW_SIZE ≤ PAGE_SIZE :=
  le_trans (Nat.le_add_right _ _) (slot_offset_bound i)

lemma readBytes_writeBytes_row (dest : List Nat) (r : Row) (off : Nat)
    (h : off ≤ dest.length)
    (h1 : r.username.length = COLUMN_USERNAME_SIZE)
    (h2 : r.email.length = COLUMN_EMAIL_SIZE) :
    readBytes (writeBytes dest off (encodeRow r)) off ROW_SIZE = encodeRow r := by
  rw [← encodeRow_length r h1 h2]
  exact readBytes_writeBytes_self dest _ off h

lemma getD_append_lt {α} [Inhabited α] (l l' : List α) (i : Nat)
    (h : i < l.length) :
    (l ++ l').getD i default = l.getD i default := by
  rw [List.getD_eq_getElem?_getD, List.getD_eq_getElem?_getD,
    List.getElem?_append_left h]

lemma getD_append_length {α} [Inhabited α] (l : List α) (a : α) :
    (l ++ [a]).getD l.length default = a := by
  rw [List.getD_eq_getElem?_getD,
    List.getElem?_append_right (le_refl l.length)]
  simp

/-- The representation invariant tying a table state to the list of rows
inserted so far: correct row count, well-formed state, and every row
slot below `num_rows` holding the wire image of the corresponding row. -/
def Inv (t : Table) (rs : List Row) : Prop :=
  t.WF ∧
  t.num_rows = rs.length ∧
  rs.length ≤ MAX_ROWS ∧
  (∀ r ∈ rs, r.WF) ∧
  (∀ i, i < rs.length → ∃ pg, pageOf t (i / ROWS_PER_PAGE) = some pg ∧
    readBytes pg (i % ROWS_PER_PAGE * ROW_SIZE) ROW_SIZE =
      encodeRow (rs.getD i default))

lemma inv_nil : Inv Table.new [] := by
  refine ⟨table_new_WF, rfl, by simp, by simp, ?_⟩
  intro i hi
  simp at hi

lemma inv_insert (t : Table) (rs : List Row) (r : Row)
    (hinv : Inv t rs) (hlt : rs.length < MAX_ROWS) (hr : r.WF) :
    ∃ t', execute_insert t r = some (.Success, t') ∧ Inv t' (rs ++ [r]) := by
  obtain ⟨hWF, hnum, hle, hwf, hslots⟩ := hinv
  have hn : t.num_rows < MAX_ROWS := by rw [hnum]; exact hlt
  obtain ⟨hself, hlenpg, heq⟩ := execute_insert_spec t r hWF hr.2.1 hr.2.2 hn
  have hplt : t.num_rows / ROWS_PER_PAGE < MAX_PAGES := page_num_bound _ hn
  have hlen2 :
      (allocPage t (t.num_rows / ROWS_PER_PAGE)).pages.length = MAX_PAGES := by
    rw [allocPage_pages_length]; exact hWF.1
  have hWF2 : (allocPage t (t.num_rows / ROWS_PER_PAGE)).WF :=
    allocPage_WF t _ hWF
  refine ⟨_, heq, ⟨?_, ?_⟩, ?_, ?_, ?_, ?_⟩
  · simp only [List.length_set]
    exact hlen2
  · intro q pg' hq
    simp only [] at hq
    by_cases hqp : q = t.num_rows / ROWS_PER_PAGE
    · subst hqp
      rw [getD_set_self _ _ _ _ (by rw [hlen2]; exact hplt)] at hq
      simp only [Option.some.injEq] at hq
      rw [← hq, writeBytes_length]
      · exact hlenpg
      · rw [encodeRow_length r hr.2.1 hr.2.2, hlenpg]
        exact slot_offset_bound _
    · rw [getD_set_ne _ _ _ _ _ (Ne.symm hqp)] at hq
      exact hWF2.2 q pg' hq
  · simp only [List.length_append, List.length_cons, List.length_nil]
    rw [hnum]
  · simp only [List.length_append, List.length_cons, List.length_nil]
    omega
  · intro r' hmem
    rcases List.mem_append.mp hmem with h | h
    · exact hwf r' h
    · rw [List.mem_singleton] at h
      subst h
      exact hr
  · intro i hi
    simp only [List.length_append, List.length_cons, List.length_nil] at hi
    rcases Nat.lt_or_ge i rs.length with hilt | hige
    · obtain ⟨pgi, hpgi, hbytes⟩ := hslots i hilt
      by_cases hpq : i / ROWS_PER_PAGE = t.num_rows / ROWS_PER_PAGE
      · have hpgt : pageOf t (t.num_rows / ROWS_PER_PAGE) = some pgi := by
          rw [← hpq]; exact hpgi
        have hpgv : (pageOf t (t.num_rows / ROWS_PER_PAGE)).getD
            (List.replicate PAGE_SIZE 0) = pgi := by
          rw [hpgt]; rfl
        have hpl : pgi.length = PAGE_SIZE := hpgv ▸ hlenpg
        refine ⟨writeBytes pgi (t.num_rows % ROWS_PER_PAGE * ROW_SIZE)
          (encodeRow r), ?_, ?_⟩
        · rw [pageOf]
          simp only []
          rw [hpq, getD_set_self _ _ _ _ (by rw [hlen2]; exact hplt), hpgv]
        · rw [readBytes_writeBytes_left]
          · rw [hbytes, getD_append_lt rs [r] i hilt]
          · exact offset_lt i t.num_rows (by rw [hnum]; exact hilt) hpq
          · rw [hpl]
            exact slot_offset_le _
      · refine ⟨pgi, ?_, by rw [hbytes, getD_append_lt rs [r] i hilt]⟩
        rw [pageOf]
        simp only []
        rw [getD_set_ne _ _ _ _ _ (fun hh => hpq hh.symm), ← pageOf,
          pageOf_allocPage_ne t _ _ hpq]
        exact hpgi
    · have hieq : i = rs.length := by omega
      subst hieq
      rw [getD_append_length rs r, ← hnum]
      refine ⟨writeBytes ((pageOf t (t.num_rows / ROWS_PER_PAGE)).getD
        (List.replicate PAGE_SIZE 0))
        (t.num_rows % ROWS_PER_PAGE * ROW_SIZE) (encodeRow r), ?_, ?_⟩
      · rw [pageOf]
        simp only []
        rw [getD_set_self _ _ _ _ (by rw [hlen2]; exact hplt)]
      · exact readBytes_writeBytes_row _ r _
          (by rw [hlenpg]; exact slot_offset_le _) hr.2.1 hr.2.2

lemma insertAll_inv (todo : List Row) : ∀ (t : Table) (done : List Row),
    Inv t done → done.length + todo.length ≤ MAX_ROWS →
    (∀ r ∈ todo, r.WF) →
    ∃ t', insertAll t todo = some (List.replicate todo.length .Success, t') ∧
      Inv t' (done ++ todo) := by
  induction todo with
  | nil =>
    intro t done hinv _ _
    exact ⟨t, rfl, by simpa using hinv⟩
  | cons r rest ih =>
    intro t done hinv hle hwf
    obtain ⟨t1, he1, hinv1⟩ := inv_insert t done r hinv
      (by simp only [List.length_cons] at hle; omega) (hwf r (by simp))
    obtain ⟨t2, he2, hinv2⟩ := ih t1 (done ++ [r]) hinv1
      (by simp only [List.length_cons] at hle
          simp only [List.length_append, List.length_cons, List.length_nil]
          omega)
      (fun r' hr' => hwf r' (by simp [hr']))
    refine ⟨t2, ?_, by simpa [List.append_assoc] using hinv2⟩
    simp only [insertAll, he1, he2, List.length_cons, List.replicate_succ]

lemma selectRows_inv (rs : List Row) (t : Table) (hinv : Inv t rs) :
    ∀ k i, i + k ≤ rs.length →
      selectRows t i k = some ((rs.drop i).take k, t) := by
  obtain ⟨hWF, hnum, hle, hwf, hslots⟩ := hinv
  intro k
  induction k with
  | zero =>
    intro i _
    simp [selectRows]
  | succ k ih =>
    intro i hik
    have hi : i < rs.length := by omega
    obtain ⟨pg, hpg, hbytes⟩ := hslots i hi
    have hp : i / ROWS_PER_PAGE < MAX_PAGES :=
      page_num_bound i (lt_of_lt_of_le hi hle)
    have hrwf : (rs.getD i default).WF := by
      rw [List.getD_eq_getElem rs default hi]
      exact hwf _ (List.getElem_mem hi)
    have hdes : deserialize (readBytes pg (i % ROWS_PER_PAGE * ROW_SIZE)
        ROW_SIZE) = rs.getD i default := by
      rw [hbytes]
      have h := deserialize_encode (rs.getD i default) [] hrwf
      rwa [List.append_nil] at h
    simp only [selectRows, row_slot_of_some t i pg hp hpg]
    rw [ih (i + 1) (by omega), hdes, List.getD_eq_getElem rs default hi,
      List.drop_eq_getElem_cons hi, List.take_succ_cons]

lemma execute_select_inv (rs : List Row) (t : Table) (hinv : Inv t rs) :
    execute_select t = some (.Success, rs, t) := by
  have h := selectRows_inv rs t hinv rs.length 0 (by omega)
  rw [execute_select, hinv.2.1, h]
  simp

/-- Page cells only ever get filled in, never changed or cleared. -/
def pagesLE (t t' : Table) : Prop :=
  ∀ p pg, pageOf t p = some pg → pageOf t' p = some pg

lemma pagesLE_refl (t : Table) : pagesLE t t := fun _ _ h => h

lemma pagesLE_trans {t1 t2 t3 : Table} (h1 : pagesLE t1 t2)
    (h2 : pagesLE t2 t3) : pagesLE t1 t3 :=
  fun p pg h => h2 p pg (h1 p pg h)

lemma pagesLE_allocPage (t : Table) (p : Nat) : pagesLE t (allocPage t p) := by
  intro q pg hq
  by_cases hqp : q = p
  · subst hqp
    rwa [allocPage_eq_of_some t q pg hq]
  · rwa [pageOf_allocPage_ne t p q hqp]

lemma row_slot_some_table (t : Table) (i : Nat) (t2 : Table) (w : List Nat)
    (h : row_slot t i = some (t2, w)) :
    i / ROWS_PER_PAGE < MAX_PAGES ∧ t2 = allocPage t (i / ROWS_PER_PAGE) := by
  rcases Nat.lt_or_ge (i / ROWS_PER_PAGE) MAX_PAGES with hp | hp
  · rw [row_slot_eq t i hp] at h
    simp only [Option.some.injEq, Prod.mk.injEq] at h
    exact ⟨hp, h.1.symm⟩
  · rw [row_slot_none t i hp] at h
    cases h

lemma row_slot_some_window (t : Table) (i : Nat) (t2 : Table) (w : List Nat)
    (hlen : t.pages.length = MAX_PAGES)
    (h : row_slot t i = some (t2, w)) :
    ∃ pg, pageOf t2 (i / ROWS_PER_PAGE) = some pg ∧
      w = readBytes pg (i % ROWS_PER_PAGE * ROW_SIZE) ROW_SIZE := by
  obtain ⟨hp, ht2⟩ := row_slot_some_table t i t2 w h
  subst ht2
  have hself := pageOf_allocPage_self t (i / ROWS_PER_PAGE) hlen hp
  refine ⟨_, hself, ?_⟩
  rw [row_slot_eq t i hp] at h
  simp only [Option.some.injEq, Prod.mk.injEq] at h
  rw [← h.2]
  rw [pageOf] at hself
  rw [hself]
  rfl

lemma selectRows_num_rows (k : Nat) : ∀ (i : Nat) (t : Table)
    (rows : List Row) (t' : Table),
    selectRows t i k = some (rows, t') → t'.num_rows = t.num_rows := by
  induction k with
  | zero =>
    intro i t rows t' h
    simp only [selectRows, Option.some.injEq, Prod.mk.injEq] at h
    rw [← h.2]
  | succ k ih =>
    intro i t rows t' h
    simp only [selectRows] at h
    rcases hrs : row_slot t i with _ | ⟨t2, w⟩
    · simp only [hrs] at h
      cases h
    · simp only [hrs] at h
      rcases hsel : selectRows t2 (i + 1) k with _ | ⟨rows3, t3⟩
      · simp only [hsel] at h
        cases h
      · simp only [hsel, Option.some.injEq, Prod.mk.injEq] at h
        obtain ⟨_, ht3⟩ := h
        rw [← ht3]
        obtain ⟨hp, ht2⟩ := row_slot_some_table t i t2 w hrs
        rw [ih (i + 1) t2 rows3 t3 hsel, ht2, allocPage_num_rows]

lemma selectRows_state (k : Nat) : ∀ (i : Nat) (t : Table) (rows : List Row)
    (t' : Table), t.WF → selectRows t i k = some (rows, t') →
    t'.WF ∧ pagesLE t t' := by
  induction k with
  | zero =>
    intro i t rows t' hWF h
    simp only [selectRows, Option.some.injEq, Prod.mk.injEq] at h
    obtain ⟨_, ht⟩ := h
    subst ht
    exact ⟨hWF, pagesLE_refl t⟩
  | succ k ih =>
    intro i t rows t' hWF h
    simp only [selectRows] at h
    rcases hrs : row_slot t i with _ | ⟨t2, w⟩
    · simp only [hrs] at h
      cases h
    · simp only [hrs] at h
      rcases hsel : selectRows t2 (i + 1) k with _ | ⟨rows3, t3⟩
      · simp only [hsel] at h
        cases h
      · simp only [hsel, Option.some.injEq, Prod.mk.injEq] at h
        obtain ⟨_, ht3⟩ := h
        rw [← ht3]
        obtain ⟨hp, ht2⟩ := row_slot_some_table t i t2 w hrs
        have hWF2 : t2.WF := by rw [ht2]; exact allocPage_WF t _ hWF
        obtain ⟨hWF3, hle3⟩ := ih (i + 1) t2 rows3 t3 hWF2 hsel
        refine ⟨hWF3, ?_⟩
        have hle2 : pagesLE t t2 := by rw [ht2]; exact pagesLE_allocPage t _
        exact pagesLE_trans hle2 hle3

lemma selectRows_replay (k : Nat) : ∀ (i : Nat) (t : Table) (rows : List Row)
    (t' : Table), t.WF → selectRows t i k = some (rows, t') →
    selectRows t' i k = some (rows, t') := by
  induction k with
  | zero =>
    intro i t rows t' _ h
    simp only [selectRows, Option.some.injEq, Prod.mk.injEq] at h ⊢
    exact ⟨h.1, trivial⟩
  | succ k ih =>
    intro i t rows t' hWF h
    simp only [selectRows] at h
    rcases hrs : row_slot t i with _ | ⟨t2, w⟩
    · simp only [hrs] at h
      cases h
    · simp only [hrs] at h
      rcases hsel : selectRows t2 (i + 1) k with _ | ⟨rows3, t3⟩
      · simp only [hsel] at h
        cases h
      · simp only [hsel, Option.some.injEq, Prod.mk.injEq] at h
        obtain ⟨hrows, ht3⟩ := h
        rw [← ht3, ← hrows]
        obtain ⟨hp, ht2⟩ := row_slot_some_table t i t2 w hrs
        obtain ⟨pg, hpgt2, hw⟩ := row_slot_some_window t i t2 w hWF.1 hrs
        have hWF2 : t2.WF := by rw [ht2]; exact allocPage_WF t _ hWF
        obtain ⟨hWF3, hle3⟩ := selectRows_state k (i + 1) t2 rows3 t3 hWF2 hsel
        have hpgt3 : pageOf t3 (i / ROWS_PER_PAGE) = some pg := hle3 _ _ hpgt2
        have hslot3 : row_slot t3 i = some (t3, w) := by
          rw [hw]
          exact row_slot_of_some t3 i pg hp hpgt3
        have hrec : selectRows t3 (i + 1) k = some (rows3, t3) :=
          ih (i + 1) t2 rows3 t3 hWF2 hsel
        simp only [selectRows, hslot3, hrec]

lemma writeRowSlot_num_rows (t : Table) (i : Nat) (r : Row) (t2 : Table)
    (h : writeRowSlot t i r = some t2) : t2.num_rows = t.num_rows := by
  simp only [writeRowSlot] at h
  split at h
  · cases h
  · simp only [Option.some.injEq] at h
    rw [← h]
    simp only []
    rw [allocPage_num_rows]

lemma insert_num_rows (t : Table) (r : Row) (res : ExecuteResult) (t' : Table)
    (h : execute_insert t r = some (res, t')) :
    (res = .Success ∧ t.num_rows < MAX_ROWS ∧
      t'.num_rows = t.num_rows + 1) ∨
    (res = .TableFull ∧ MAX_ROWS ≤ t.num_rows ∧ t' = t) := by
  rw [execute_insert] at h
  split at h
  · next hge =>
    right
    simp only [Option.some.injEq, Prod.mk.injEq] at h
    exact ⟨h.1.symm, hge, h.2.symm⟩
  · next hlt =>
    left
    rcases hw : writeRowSlot t t.num_rows r with _ | t2
    · rw [hw] at h; cases h
    · rw [hw] at h
      simp only [Option.some.injEq, Prod.mk.injEq] at h
      obtain ⟨hres, ht'⟩ := h
      refine ⟨hres.symm, Nat.not_le.mp hlt, ?_⟩
      rw [← ht']
      simp only []
      rw [writeRowSlot_num_rows t t.num_rows r t2 hw]

lemma select_num_rows (t : Table) (res : ExecuteResult) (rows : List Row)
    (t' : Table) (h : execute_select t = some (res, rows, t')) :
    t'.num_rows = t.num_rows := by
  rw [execute_select] at h
  rcases hs : selectRows t 0 t.num_rows with _ | ⟨rows0, t0⟩
  · simp only [hs] at h
    cases h
  · simp only [hs, Option.some.injEq, Prod.mk.injEq] at h
    obtain ⟨_, _, ht0⟩ := h
    rw [← ht0]
    exact selectRows_num_rows t.num_rows 0 t rows0 t0 hs

lemma reachable_bound (t : Table) (h : Reachable t) :
    t.num_rows ≤ MAX_ROWS := by
  induction h with
  | base => exact Nat.zero_le _
  | step h1 h2 ih =>
    cases h2 with
    | insert r res he =>
      rcases insert_num_rows _ _ _ _ he with ⟨_, hlt, hn⟩ | ⟨_, _, hteq⟩
      · rw [hn]; omega
      · rw [hteq]; exact ih
    | sel res rows he =>
      rw [select_num_rows _ _ _ _ he]
      exact ih

lemma writeRowSlot_ne_none (t : Table) (i : Nat) (r : Row)
    (hp : i / ROWS_PER_PAGE < MAX_PAGES) : writeRowSlot t i r ≠ none := by
  simp only [writeRowSlot]
  rw [if_neg (Nat.not_le.mpr hp)]
  simp

/-- Claim C1: for every sequence of at most `MAX_ROWS` (well-formed) rows
fed to `execute_insert` on a fresh table, every insert returns `Success`,
and a subsequent `execute_select` decodes exactly those rows, in
insertion order, each equal to the row supplied to the corresponding
insert call. -/
theorem C1_dense_packing (rs : List Row) (hlen : rs.length ≤ MAX_ROWS)
    (hwf : ∀ r ∈ rs, r.WF) :
    ∃ t, insertAll Table.new rs =
        some (List.replicate rs.length .Success, t) ∧
      execute_select t = some (.Success, rs, t) := by
  obtain ⟨t, he, hinv⟩ := insertAll_inv rs Table.new [] inv_nil
    (by simpa using hlen) hwf
  refine ⟨t, he, ?_⟩
  exact execute_select_inv rs t (by simpa using hinv)

set_option maxRecDepth 40000 in
theorem C1_dense_packing_witness :
    (([testRow] : List Row).length ≤ MAX_ROWS ∧
      ∀ r ∈ ([testRow] : List Row), r.WF) ∧
    ∃ t, insertAll Table.new [testRow] =
        some (List.replicate ([testRow] : List Row).length .Success, t) ∧
      execute_select t = some (.Success, [testRow], t) :=
  ⟨⟨by decide, by decide⟩, C1_dense_packing [testRow] (by decide) (by decide)⟩

/-- Claim C2: the codec round-trip law.  For every row whose fields have
the fixed array lengths (and a `u32` id), deserializing the output of
serializing into any buffer of length at least `ROW_SIZE` reproduces the
row exactly. -/
theorem C2_roundtrip (r : Row) (dest : List Nat) (hWF : r.WF)
    (hdest : ROW_SIZE ≤ dest.length) :
    deserialize (serialize r dest) = r := by
  rw [serialize_spec r dest hWF.2.1 hWF.2.2]
  exact deserialize_encode r _ hWF

set_option maxRecDepth 40000 in
theorem C2_roundtrip_witness :
    (testRow.WF ∧ ROW_SIZE ≤ (List.replicate 291 (0 : Nat)).length) ∧
    deserialize (serialize testRow (List.replicate 291 0)) = testRow :=
  ⟨⟨by decide, by decide⟩,
    C2_roundtrip testRow (List.replicate 291 0) (by decide) (by decide)⟩

/-- Claim C3: inserting into a table with `num_rows = MAX_ROWS` returns
`TableFull` and returns the table state completely unchanged (the very
same state: count and pages); the attempted row is discarded. -/
theorem C3_table_full (t : Table) (r : Row) (h : t.num_rows = MAX_ROWS) :
    execute_insert t r = some (.TableFull, t) := by
  rw [execute_insert, if_pos (le_of_eq h.symm)]

theorem C3_table_full_witness :
    fullTable.num_rows = MAX_ROWS ∧
    execute_insert fullTable testRow = some (.TableFull, fullTable) :=
  ⟨rfl, C3_table_full fullTable testRow rfl⟩

/-- Claim C4: with `ROW_SIZE = 291`, `PAGE_SIZE = 4096` and
`ROWS_PER_PAGE = 14`, `row_slot i` (for `i / ROWS_PER_PAGE < MAX_PAGES`)
returns the `ROW_SIZE`-byte window of the page numbered
`i / ROWS_PER_PAGE`, starting at byte offset
`(i % ROWS_PER_PAGE) * ROW_SIZE` within that page. -/
theorem C4_row_slot_addressing (t : Table) (i : Nat) (hWF : t.WF)
    (hp : i / ROWS_PER_PAGE < MAX_PAGES) :
    ROW_SIZE = 291 ∧ PAGE_SIZE = 4096 ∧ ROWS_PER_PAGE = 14 ∧
    ∃ t2 pg, row_slot t i =
        some (t2, readBytes pg (i % ROWS_PER_PAGE * ROW_SIZE) ROW_SIZE) ∧
      pageOf t2 (i / ROWS_PER_PAGE) = some pg ∧
      pg.length = PAGE_SIZE ∧
      (readBytes pg (i % ROWS_PER_PAGE * ROW_SIZE) ROW_SIZE).length =
        ROW_SIZE := by
  have hself := pageOf_allocPage_self t (i / ROWS_PER_PAGE) hWF.1 hp
  have hlenpg : ((pageOf t (i / ROWS_PER_PAGE)).getD
      (List.replicate PAGE_SIZE 0)).length = PAGE_SIZE := by
    rcases hq : pageOf t (i / ROWS_PER_PAGE) with _ | pg0
    · simp
    · rw [pageOf] at hq
      simpa using hWF.2 _ _ hq
  refine ⟨rfl, rfl, rfl, allocPage t (i / ROWS_PER_PAGE), _, ?_, hself,
    hlenpg, ?_⟩
  · rw [row_slot_eq t i hp]
    rw [pageOf] at hself
    rw [hself]
    rfl
  · exact readBytes_length _ _ _ (by rw [hlenpg]; exact slot_offset_bound i)

theorem C4_row_slot_addressing_witness :
    (Table.new.WF ∧ 0 / ROWS_PER_PAGE < MAX_PAGES) ∧
    (ROW_SIZE = 291 ∧ PAGE_SIZE = 4096 ∧ ROWS_PER_PAGE = 14 ∧
      ∃ t2 pg, row_slot Table.new 0 =
          some (t2, readBytes pg (0 % ROWS_PER_PAGE * ROW_SIZE) ROW_SIZE) ∧
        pageOf t2 (0 / ROWS_PER_PAGE) = some pg ∧
        pg.length = PAGE_SIZE ∧
        (readBytes pg (0 % ROWS_PER_PAGE * ROW_SIZE) ROW_SIZE).length =
          ROW_SIZE) :=
  ⟨⟨table_new_WF, by decide⟩,
    C4_row_slot_addressing Table.new 0 table_new_WF (by decide)⟩

/-- Claim C5: the out-of-bounds fatal branch of `row_slot` is unreachable
from `execute_insert`.  For every table with `num_rows ≤ MAX_ROWS`,
`execute_insert` never returns the modelled panic (`none`): when it does
write, the pre-check `num_rows < MAX_ROWS` guarantees the page number of
slot `num_rows` is below `MAX_PAGES`, so the write through `row_slot`
succeeds. -/
theorem C5_insert_never_panics (t : Table) (r : Row)
    (h : t.num_rows ≤ MAX_ROWS) :
    execute_insert t r ≠ none ∧
    (t.num_rows < MAX_ROWS → t.num_rows / ROWS_PER_PAGE < MAX_PAGES ∧
      writeRowSlot t t.num_rows r ≠ none) := by
  constructor
  · rw [execute_insert]
    split
    · simp
    · next hlt =>
      have hp := page_num_bound t.num_rows (Nat.not_le.mp hlt)
      rcases hw : writeRowSlot t t.num_rows r with _ | t2
      · exact absurd hw (writeRowSlot_ne_none t t.num_rows r hp)
      · simp [hw]
  · intro hlt
    have hp := page_num_bound t.num_rows hlt
    exact ⟨hp, writeRowSlot_ne_none t t.num_rows r hp⟩

theorem C5_insert_never_panics_witness :
    Table.new.num_rows ≤ MAX_ROWS ∧
    (execute_insert Table.new testRow ≠ none ∧
      (Table.new.num_rows < MAX_ROWS →
        Table.new.num_rows / ROWS_PER_PAGE < MAX_PAGES ∧
        writeRowSlot Table.new Table.new.num_rows testRow ≠ none)) :=
  ⟨by decide, C5_insert_never_panics Table.new testRow (by decide)⟩

/-- Claim C6 as stated is false on the code: `Row::new` with a 33-byte
username does not truncate and complete normally; the slice expression
`row.username[..33]` on the 32-byte array panics, modelled here as
`Row.new` returning `none` (no row at all is constructed). -/
theorem C6_counterexample :
    Row.new 1 (List.replicate 33 97) [] = none := by decide

/-- Claim C6 amended: constructing a row from an oversized username or
email fails (the copy panics); no truncated row is produced.  Construction
completes only for values within the field capacities. -/
theorem C6_oversized_fails (id : Nat) (username email : List Nat)
    (h : COLUMN_USERNAME_SIZE < username.length ∨
      COLUMN_EMAIL_SIZE < email.length) :
    Row.new id username email = none := by
  rw [Row.new]
  rcases h with h | h
  · rw [if_neg (by omega)]
  · rcases le_or_lt username.length COLUMN_USERNAME_SIZE with h2 | h2
    · rw [if_pos h2, if_neg (by omega)]
    · rw [if_neg (by omega)]

theorem C6_oversized_fails_witness :
    (COLUMN_USERNAME_SIZE < (List.replicate 33 97).length ∨
      COLUMN_EMAIL_SIZE < ([] : List Nat).length) ∧
    Row.new 5 (List.replicate 33 97) [] = none :=
  ⟨Or.inl (by decide),
    C6_oversized_fails 5 (List.replicate 33 97) [] (Or.inl (by decide))⟩

set_option maxRecDepth 40000 in
/-- Claim C7 as stated is false on the code: the encoded test row is not
the id bytes, the 8 username bytes plus 24 zeros, and the 16 email bytes
plus 238 zeros — that accounts for only 290 of the 291 bytes.  The email
field carries 239 zero padding bytes (255 - 16), not 238. -/
theorem C7_counterexample :
    serialize testRow (List.replicate 291 0) ≠
      [1, 0, 0, 0] ++ testUsername ++ List.replicate 24 0 ++
        testEmail ++ List.replicate 238 0 := by decide

set_option maxRecDepth 40000 in
/-- Claim C7 amended: serializing the row built from
`(1, testuser, test@example.com)` writes exactly `ROW_SIZE = 291` bytes:
bytes 0-3 hold `1` little-endian, bytes 4-35 the 8 username bytes plus 24
zeros, bytes 36-290 the 16 email bytes plus 239 zeros; every destination
byte from offset 291 on is untouched. -/
theorem C7_concrete_layout (dest : List Nat) (h : ROW_SIZE ≤ dest.length) :
    Row.new 1 testUsername testEmail = some testRow ∧
    serialize testRow dest =
      ([1, 0, 0, 0] ++ testUsername ++ List.replicate 24 0 ++
        testEmail ++ List.replicate 239 0) ++ dest.drop ROW_SIZE := by
  constructor
  · decide
  · rw [serialize_spec testRow dest (by decide) (by decide)]
    have he : encodeRow testRow =
        [1, 0, 0, 0] ++ testUsername ++ List.replicate 24 0 ++
          testEmail ++ List.replicate 239 0 := by decide
    rw [he]

set_option maxRecDepth 40000 in
theorem C7_concrete_layout_witness :
    ROW_SIZE ≤ (List.replicate 291 (0 : Nat)).length ∧
    (Row.new 1 testUsername testEmail = some testRow ∧
      serialize testRow (List.replicate 291 0) =
        ([1, 0, 0, 0] ++ testUsername ++ List.replicate 24 0 ++
          testEmail ++ List.replicate 239 0) ++
          (List.replicate 291 (0 : Nat)).drop ROW_SIZE) :=
  ⟨by decide, C7_concrete_layout (List.replicate 291 0) (by decide)⟩

/-- Claim C8: in every table state reachable from `Table::new` by
inserts and selects, `num_rows ≤ MAX_ROWS`; moreover no operation
decreases `num_rows` — a (successful) insert call increments it by
exactly one or leaves it unchanged, and a select leaves it unchanged. -/
theorem C8_capacity_invariant (t : Table) (h : Reachable t) :
    t.num_rows ≤ MAX_ROWS ∧
    (∀ r res t', execute_insert t r = some (res, t') →
      t'.num_rows = t.num_rows + 1 ∨ t'.num_rows = t.num_rows) ∧
    (∀ res rows t', execute_select t = some (res, rows, t') →
      t'.num_rows = t.num_rows) := by
  refine ⟨reachable_bound t h, ?_, ?_⟩
  · intro r res t' he
    rcases insert_num_rows t r res t' he with ⟨_, _, h1⟩ | ⟨_, _, h1⟩
    · exact Or.inl h1
    · exact Or.inr (by rw [h1])
  · intro res rows t' he
    exact select_num_rows t res rows t' he

theorem C8_capacity_invariant_witness :
    Table.new.num_rows ≤ MAX_ROWS ∧
    (∀ r res t', execute_insert Table.new r = some (res, t') →
      t'.num_rows = Table.new.num_rows + 1 ∨
      t'.num_rows = Table.new.num_rows) ∧
    (∀ res rows t', execute_select Table.new = some (res, rows, t') →
      t'.num_rows = Table.new.num_rows) :=
  C8_capacity_invariant Table.new Reachable.base

/-- Claim C9: running `execute_select` twice in succession with no
intervening insert yields two identical row sequences (and hence
identical formatted output, the output lines being a function of the
decoded rows): the second run replays exactly the rows of the first,
and the table state is unchanged by the second run. -/
theorem C9_select_idempotent (t : Table) (rows₁ rows₂ : List Row)
    (t₁ t₂ : Table) (hWF : t.WF)
    (h1 : execute_select t = some (.Success, rows₁, t₁))
    (h2 : execute_select t₁ = some (.Success, rows₂, t₂)) :
    rows₂ = rows₁ ∧ t₂ = t₁ := by
  rw [execute_select] at h1
  rcases hs1 : selectRows t 0 t.num_rows with _ | ⟨r1, tt1⟩
  · simp only [hs1] at h1
    cases h1
  · simp only [hs1, Option.some.injEq, Prod.mk.injEq] at h1
    obtain ⟨_, hr1, ht1⟩ := h1
    have hnum : t₁.num_rows = t.num_rows := by
      rw [← ht1]
      exact selectRows_num_rows t.num_rows 0 t r1 tt1 hs1
    have hreplay : selectRows t₁ 0 t.num_rows = some (rows₁, t₁) := by
      rw [← ht1, ← hr1]
      exact selectRows_replay t.num_rows 0 t r1 tt1 hWF hs1
    rw [execute_select, hnum] at h2
    simp only [hreplay, Option.some.injEq, Prod.mk.injEq] at h2
    obtain ⟨_, hr2, ht2⟩ := h2
    exact ⟨hr2.symm, ht2.symm⟩

theorem C9_select_idempotent_witness :
    Table.new.WF ∧ (([] : List Row) = [] ∧ Table.new = Table.new) :=
  ⟨table_new_WF,
    C9_select_idempotent Table.new [] [] Table.new Table.new table_new_WF
      rfl rfl⟩

/-- Claim C10: a successful insert at `num_rows = n < MAX_ROWS` modifies
only the `ROW_SIZE`-byte slot of row `n` (allocating the owning page
zero-initialized when absent): every other page cell keeps its allocation
state and contents, every previously written slot (`i < n`) is
byte-identical, slot `n` holds exactly the wire image of the inserted
row, and on the owning page every byte region disjoint from the slot
window equals the old page content (an absent page reading as zeros). -/
theorem C10_insert_frame (t : Table) (r : Row) (hWF : t.WF) (hr : r.WF)
    (hn : t.num_rows < MAX_ROWS) :
    ∃ t', execute_insert t r = some (.Success, t') ∧
      t'.num_rows = t.num_rows + 1 ∧
      (∀ p, p ≠ t.num_rows / ROWS_PER_PAGE → pageOf t' p = pageOf t p) ∧
      (∀ i, i < t.num_rows → slotBytes t' i = slotBytes t i) ∧
      slotBytes t' t.num_rows = encodeRow r ∧
      (∀ j len, j + len ≤ t.num_rows % ROWS_PER_PAGE * ROW_SIZE →
        readBytes ((pageOf t' (t.num_rows / ROWS_PER_PAGE)).getD
          (List.replicate PAGE_SIZE 0)) j len =
        readBytes ((pageOf t (t.num_rows / ROWS_PER_PAGE)).getD
          (List.replicate PAGE_SIZE 0)) j len) ∧
      (∀ j len, t.num_rows % ROWS_PER_PAGE * ROW_SIZE + ROW_SIZE ≤ j →
        readBytes ((pageOf t' (t.num_rows / ROWS_PER_PAGE)).getD
          (List.replicate PAGE_SIZE 0)) j len =
        readBytes ((pageOf t (t.num_rows / ROWS_PER_PAGE)).getD
          (List.replicate PAGE_SIZE 0)) j len) := by
  obtain ⟨hself, hlenpg, heq⟩ := execute_insert_spec t r hWF hr.2.1 hr.2.2 hn
  have hplt : t.num_rows / ROWS_PER_PAGE < MAX_PAGES := page_num_bound _ hn
  have hlen2 :
      (allocPage t (t.num_rows / ROWS_PER_PAGE)).pages.length = MAX_PAGES := by
    rw [allocPage_pages_length]; exact hWF.1
  refine ⟨_, heq, rfl, ?_, ?_, ?_, ?_, ?_⟩
  · intro p hp
    rw [pageOf]
    simp only []
    rw [getD_set_ne _ _ _ _ _ (fun hh => hp hh.symm), ← pageOf,
      pageOf_allocPage_ne t _ _ hp]
  · intro i hi
    rw [slotBytes, slotBytes]
    by_cases hpq : i / ROWS_PER_PAGE = t.num_rows / ROWS_PER_PAGE
    · rw [hpq, pageOf]
      simp only []
      rw [getD_set_self _ _ _ _ (by rw [hlen2]; exact hplt)]
      simp only [Option.getD_some]
      rw [readBytes_writeBytes_left]
      · exact offset_lt i t.num_rows hi hpq
      · rw [hlenpg]
        exact slot_offset_le _
    · rw [pageOf]
      simp only []
      rw [getD_set_ne _ _ _ _ _ (fun hh => hpq hh.symm), ← pageOf,
        pageOf_allocPage_ne t _ _ hpq]
  · rw [slotBytes, pageOf]
    simp only []
    rw [getD_set_self _ _ _ _ (by rw [hlen2]; exact hplt)]
    simp only [Option.getD_some]
    exact readBytes_writeBytes_row _ r _
      (by rw [hlenpg]; exact slot_offset_le _) hr.2.1 hr.2.2
  · intro j len hj
    rw [pageOf]
    simp only []
    rw [getD_set_self _ _ _ _ (by rw [hlen2]; exact hplt)]
    simp only [Option.getD_some]
    exact readBytes_writeBytes_left _ _ _ _ _ hj
      (by rw [hlenpg]; exact slot_offset_le _)
  · intro j len hj
    rw [pageOf]
    simp only []
    rw [getD_set_self _ _ _ _ (by rw [hlen2]; exact hplt)]
    simp only [Option.getD_some]
    exact readBytes_writeBytes_right _ _ _ _ _
      (by rw [encodeRow_length r hr.2.1 hr.2.2]; exact hj)
      (by rw [hlenpg]; exact slot_offset_le _)

set_option maxRecDepth 40000 in
theorem C10_insert_frame_witness :
    (Table.new.WF ∧ testRow.WF ∧ Table.new.num_rows < MAX_ROWS) ∧
    (∃ t', execute_insert Table.new testRow = some (.Success, t') ∧
      t'.num_rows = Table.new.num_rows + 1 ∧
      (∀ p, p ≠ Table.new.num_rows / ROWS_PER_PAGE →
        pageOf t' p = pageOf Table.new p) ∧
      (∀ i, i < Table.new.num_rows → slotBytes t' i = slotBytes Table.new i) ∧
      slotBytes t' Table.new.num_rows = encodeRow testRow ∧
      (∀ j len, j + len ≤ Table.new.num_rows % ROWS_PER_PAGE * ROW_SIZE →
        readBytes ((pageOf t' (Table.new.num_rows / ROWS_PER_PAGE)).getD
          (List.replicate PAGE_SIZE 0)) j len =
        readBytes ((pageOf Table.new (Table.new.num_rows / ROWS_PER_PAGE)).getD
          (List.replicate PAGE_SIZE 0)) j len) ∧
      (∀ j len, Table.new.num_rows % ROWS_PER_PAGE * ROW_SIZE + ROW_SIZE ≤ j →
        readBytes ((pageOf t' (Table.new.num_rows / ROWS_PER_PAGE)).getD
          (List.replicate PAGE_SIZE 0)) j len =
        readBytes ((pageOf Table.new (Table.new.num_rows / ROWS_PER_PAGE)).getD
          (List.replicate PAGE_SIZE 0)) j len)) :=
  ⟨⟨table_new_WF, by decide, by decide⟩,
    C10_insert_frame Table.new testRow table_new_WF (by decide) (by decide)⟩

end RustDb
